import Mathlib

/-!
Verification of the status-history interpretation and metrics-derivation
engine of the jira-metrics repository.

The Python source is embedded shallowly:

* timestamps (`pd.Timestamp`) are rationals counting seconds;
* floating-point day values are rationals (`total_seconds() / 86400.0`);
* Python `None` / pandas `NaT` / `NaN` become `Option`;
* a pandas `DataFrame` becomes a list of rows plus flags recording which
  optional columns are present (`pd.DataFrame([])` built from zero rows has
  no columns at all, which is why the flags matter);
* code that can raise (`KeyError` on a missing column, `AttributeError` on
  `None`) returns `Except String`.

Sources embedded: `src/metrics.py` (`_first_time_to_status`,
`_last_time_to_status`, `_was_reopened`, `compute_all_metrics`),
`src/src/data_processing.py` (`_time_in_status`,
`compute_status_durations_column`, `_extract_status_history`), and
`src/report.py` / `src/src/report.py` (the recommendations block of
`generate_summary_markdown`, identical in both copies).
-/

/-- A timestamp, in seconds (embedding of `pd.Timestamp`). -/
abbrev Timestamp := ℚ

/-- One status transition `(timestamp, fromString, toString)` as produced by
`_extract_status_history` in `src/src/data_processing.py`. -/
structure StatusTransition where
  t : Timestamp
  fromStatus : Option String
  toStatus : Option String
deriving Repr, DecidableEq

/-- Membership test `to in names` for an optional status string against a set
of status names (Python: `None in {...}` is `False` for a set of strings). -/
def inNames (o : Option String) (names : List String) : Bool :=
  match o with
  | some s => names.contains s
  | none => false

/-- `_first_time_to_status` (src/metrics.py lines 19-25): scan forward and
return the timestamp of the first transition whose `toStatus` is in
`targets`, else `None`. -/
def firstTimeToStatus (history : List StatusTransition) (targets : List String) :
    Option Timestamp :=
  match history with
  | [] => none
  | tr :: rest =>
    if inNames tr.toStatus targets then some tr.t
    else firstTimeToStatus rest targets

/-- `_last_time_to_status` (src/metrics.py lines 28-34): scan over
`reversed(history)` and return the first match, i.e. the most recent
transition into a target status. -/
def lastTimeToStatus (history : List StatusTransition) (targets : List String) :
    Option Timestamp :=
  firstTimeToStatus history.reverse targets

/-- Loop of `_was_reopened` (src/metrics.py lines 37-47) with the
`seen_done` flag made explicit. -/
def wasReopenedGo (doneNames : List String) (seenDone : Bool) :
    List StatusTransition → Bool
  | [] => false
  | tr :: rest =>
    if inNames tr.toStatus doneNames then wasReopenedGo doneNames true rest
    else if seenDone then true
    else wasReopenedGo doneNames seenDone rest

/-- `_was_reopened` (src/metrics.py lines 37-47). -/
def wasReopened (history : List StatusTransition) (doneNames : List String) : Bool :=
  wasReopenedGo doneNames false history

/-- A status→accumulated-duration mapping (Python `Dict[str, timedelta]`,
insertion-ordered); durations are in seconds. -/
abbrev Durations := List (String × ℚ)

/-- `durations[k] = durations.get(k, timedelta()) + v`: add `v` into the
bucket `k`, keeping the dict's insertion order. -/
def addDur (m : Durations) (k : String) (v : ℚ) : Durations :=
  match m with
  | [] => [(k, v)]
  | (k0, v0) :: rest =>
    if k0 = k then (k0, v0 + v) :: rest
    else (k0, v0) :: addDur rest k v

/-- Loop of `_time_in_status` (src/src/data_processing.py lines 163-169):
for each consecutive pair, accrue `end - start` into the bucket of the
earlier transition's `toStatus`, skipping pairs whose earlier `toStatus`
is `None`. -/
def timeInStatusGo (acc : Durations) : List StatusTransition → Durations
  | tr1 :: tr2 :: rest =>
    timeInStatusGo
      (match tr1.toStatus with
       | none => acc
       | some s => addDur acc s (tr2.t - tr1.t))
      (tr2 :: rest)
  | _ => acc

/-- `_time_in_status` (src/src/data_processing.py lines 157-170). A history
of length `< 2` yields the empty mapping. -/
def timeInStatus (history : List StatusTransition) : Durations :=
  if history.length < 2 then [] else timeInStatusGo [] history

/-- Total of all buckets of a durations mapping, in seconds. -/
def durTotal (m : Durations) : ℚ :=
  (m.map Prod.snd).sum

/-- `listStartsWith needle hay` is true when `needle` is an initial segment
of `hay`. -/
def listStartsWith : List Char → List Char → Bool
  | [], _ => true
  | _ :: _, [] => false
  | a :: as, b :: bs => a = b && listStartsWith as bs

/-- Substring test on character lists (Python `needle in hay`). -/
def containsSub (needle : List Char) : List Char → Bool
  | [] => needle.isEmpty
  | c :: rest => listStartsWith needle (c :: rest) || containsSub needle rest

/-- The characters of `s.lower()`, lowercased character by character
(status names are plain ASCII, where this agrees with Python `str.lower`). -/
def lowerData (s : String) : List Char :=
  s.data.map Char.toLower

/-- Python `"blocked" in status_name.lower()`. -/
def isBlockedName (s : String) : Bool :=
  containsSub "blocked".data (lowerData s)

/-- The accumulated blocked total of `compute_status_durations_column`
(src/src/data_processing.py lines 180-183): sum of the buckets whose name is
truthy (non-empty) and contains "blocked" case-insensitively; in seconds. -/
def blockedTotalSeconds (dur : Durations) : ℚ :=
  ((dur.filter fun p => (p.1 != "") && isBlockedName p.1).map Prod.snd).sum

/-- The per-row `blocked_days` value of `compute_status_durations_column`
(src/src/data_processing.py line 184): `total.total_seconds() / 86400.0 if
total else None` — a zero total is falsy and yields `None`. -/
def blockedDaysOfDurations (dur : Durations) : Option ℚ :=
  let total := blockedTotalSeconds dur
  if total = 0 then none else some (total / 86400)

/-- One row of the issues DataFrame, as built by
`build_issue_rows_dataframe` (src/src/data_processing.py lines 111-154) and
extended by `compute_status_durations_column`. -/
structure IssueRow where
  key : Option String
  created : Option Timestamp
  resolved : Option Timestamp
  story_points : Option ℚ
  sprint_id : Option Int
  status_history : List StatusTransition
  status_durations : Durations
  blocked_days : Option ℚ
deriving Repr, DecidableEq

/-- The issues DataFrame: its rows, plus flags recording which optional
columns exist (a DataFrame built from zero row-dicts has no columns). -/
structure Frame where
  rows : List IssueRow
  hasStatusHistory : Bool
  hasCreated : Bool
  hasResolved : Bool
  hasSprintId : Bool
  hasStoryPoints : Bool
  hasBlockedDays : Bool
deriving Repr, DecidableEq

/-- `pd.DataFrame([])`: the frame produced from zero issues, with no rows
and no columns. -/
def emptyFrame : Frame :=
  { rows := []
    hasStatusHistory := false
    hasCreated := false
    hasResolved := false
    hasSprintId := false
    hasStoryPoints := false
    hasBlockedDays := false }

/-- `compute_status_durations_column` (src/src/data_processing.py lines
173-186): add the `status_durations` and `blocked_days` columns.
`df["status_history"]` raises `KeyError` when the column is absent. -/
def computeStatusDurationsColumn (f : Frame) : Except String Frame :=
  if f.hasStatusHistory = false then
    Except.error "KeyError: status_history"
  else
    Except.ok
      { f with
        rows := f.rows.map fun r =>
          { r with
            status_durations := timeInStatus r.status_history
            blocked_days := blockedDaysOfDurations (timeInStatus r.status_history) }
        hasBlockedDays := true }

/-- Embedding of the `MetricsResult` dataclass (src/metrics.py lines 7-16).
The two derived per-row columns of `dfm` that the spec talks about are kept
as explicit fields (`lead_time_days` is `none` when the column was never
created because `created`/`resolved` are missing). `throughput` and
`velocity` are `pd.Series` indexed by sprint id, embedded as association
lists in the ascending key order of `groupby`. -/
structure MetricsResult where
  cycle_time_days : List (Option ℚ)
  lead_time_days : Option (List (Option ℚ))
  throughput : List (Int × Nat)
  velocity : List (Int × ℚ)
  reopen_rate_pct : ℚ
  avg_cycle_time_days : Option ℚ
  avg_lead_time_days : Option ℚ
  cycle_time_std_days : Option ℚ
  blocked_avg_days : Option ℚ
deriving Repr, DecidableEq

/-- Per-row `in_progress_time` (src/metrics.py lines 59-61). -/
def inProgressTimeOfRow (inProgressNames : List String) (r : IssueRow) :
    Option Timestamp :=
  firstTimeToStatus r.status_history inProgressNames

/-- Per-row `done_time` (src/metrics.py lines 63-68):
`resolved.where(resolved.notna(), last_done)` — the authoritative
`resolved` when present, else the last transition into a done status. -/
def doneTimeOfRow (doneNames : List String) (r : IssueRow) : Option Timestamp :=
  match r.resolved with
  | some ts => some ts
  | none => lastTimeToStatus r.status_history doneNames

/-- Per-row `cycle_time_days` (src/metrics.py lines 73-76): the signed
difference `done_time - in_progress_time` in days; `NaN` (here `none`) when
either endpoint is missing. -/
def cycleTimeDaysOfRow (inProgressNames doneNames : List String) (r : IssueRow) :
    Option ℚ :=
  match doneTimeOfRow doneNames r, inProgressTimeOfRow inProgressNames r with
  | some d, some i => some ((d - i) / 86400)
  | _, _ => none

/-- Per-row `lead_time_days` (src/metrics.py lines 78-82): the signed
difference `resolved - created` in days. -/
def leadTimeDaysOfRow (r : IssueRow) : Option ℚ :=
  match r.resolved, r.created with
  | some res, some cre => some ((res - cre) / 86400)
  | _, _ => none

/-- Insert a sprint id into an ascending duplicate-free key list (models the
sorted group keys of `groupby("sprint_id")`). -/
def insertSprintKey (s : Int) : List Int → List Int
  | [] => [s]
  | k :: rest =>
    if s = k then k :: rest
    else if s < k then s :: k :: rest
    else k :: insertSprintKey s rest

/-- The ascending duplicate-free sprint ids of a row list (the group keys of
`groupby("sprint_id")`). -/
def sprintKeys (rows : List IssueRow) : List Int :=
  (rows.filterMap fun r => r.sprint_id).foldl (fun acc s => insertSprintKey s acc) []

/-- `Series.sum(min_count=1)` over one group's `story_points`: skip missing
values, but return `NaN` (here `none`) when the group has no non-missing
value at all. -/
def sumMinCount1 (vals : List (Option ℚ)) : Option ℚ :=
  if (vals.filterMap id).isEmpty then none else some (vals.filterMap id).sum

/-- `series.mean()` guarded by `if len(series)` (src/metrics.py lines
120-121): `None` on an empty series. -/
def listMean (l : List ℚ) : Option ℚ :=
  if l.length = 0 then none else some (l.sum / l.length)

/-- The sample variance (`ddof=1`) underlying `series.std(ddof=1)`
(src/metrics.py line 122). The source stores its square root; the square
root itself is not rational, so `computeAllMetrics` takes the square-root
function on day values as the parameter `sqrtQ` (abstracting the
floating-point square root). -/
def sampleVariance (l : List ℚ) : ℚ :=
  ((l.map fun x => (x - l.sum / l.length) ^ 2).sum) / (l.length - 1)

/-- The rows with a defined `done_time` — the `completed_mask` selection of
`compute_all_metrics` (src/metrics.py lines 86 and 94). -/
def completedRowsOf (doneNames : List String) (rows : List IssueRow) :
    List IssueRow :=
  rows.filter fun r => (doneTimeOfRow doneNames r).isSome

/-- `reopen_rate_pct` (src/metrics.py lines 84-91): count completed rows
and rows that are both reopened and completed, divide, scale to percent;
`0.0` when nothing is completed. -/
def reopenRateOf (doneNames : List String) (rows : List IssueRow) : ℚ :=
  let completedTotal := (completedRowsOf doneNames rows).length
  let reopenedTotal :=
    (rows.filter fun r =>
      wasReopened r.status_history doneNames
        && (doneTimeOfRow doneNames r).isSome).length
  if 0 < completedTotal then
    (reopenedTotal : ℚ) / (completedTotal : ℚ) * 100
  else 0

/-- `completed_with_sprint` (src/metrics.py lines 94-99): the completed
rows that carry a sprint id, or no rows at all when the `sprint_id` column
is missing. -/
def completedWithSprintOf (doneNames : List String) (f : Frame) :
    List IssueRow :=
  if f.hasSprintId then
    (completedRowsOf doneNames f.rows).filter fun r => r.sprint_id.isSome
  else []

/-- `throughput` (src/metrics.py line 102): `groupby("sprint_id").size()`,
one entry per ascending sprint key. -/
def throughputOf (doneNames : List String) (f : Frame) : List (Int × Nat) :=
  (sprintKeys (completedWithSprintOf doneNames f)).map fun s =>
    (s,
      ((completedWithSprintOf doneNames f).filter fun r =>
        r.sprint_id = some s).length)

/-- `velocity` (src/metrics.py lines 104-107):
`groupby("sprint_id")["story_points"].sum(min_count=1)` followed by
`fillna(0.0)`. -/
def velocityOf (doneNames : List String) (f : Frame) : List (Int × ℚ) :=
  (sprintKeys (completedWithSprintOf doneNames f)).map fun s =>
    (s,
      (sumMinCount1
        (((completedWithSprintOf doneNames f).filter fun r =>
          r.sprint_id = some s).map fun r => r.story_points)).getD 0)

/-- `compute_all_metrics` (src/metrics.py lines 50-138). `sqrtQ` abstracts
the floating-point square root used by `std` (see `sampleVariance`).
Raising paths become `Except.error`: a missing `status_history` column is a
`KeyError` at line 59, and a missing `resolved` column makes `dfm.get`
return `None` so that `.notna()` at line 68 is an `AttributeError`; a
missing `story_points` column is a `KeyError` at line 104 when the groupby
is reached with a non-empty selection. -/
def computeAllMetrics (sqrtQ : ℚ → ℚ) (f : Frame)
    (inProgressNames doneNames : List String) : Except String MetricsResult :=
  if f.hasStatusHistory = false then
    Except.error "KeyError: status_history"
  else if f.hasResolved = false then
    Except.error "AttributeError: NoneType object has no attribute notna"
  else if (!(completedWithSprintOf doneNames f).isEmpty)
      && (f.hasStoryPoints = false) then
    Except.error "KeyError: story_points"
  else
    let cycleCol := f.rows.map (cycleTimeDaysOfRow inProgressNames doneNames)
    let leadCol : Option (List (Option ℚ)) :=
      if f.hasCreated then some (f.rows.map leadTimeDaysOfRow) else none
    let cycles := cycleCol.filterMap id
    let leads := (leadCol.getD []).filterMap id
    let blockedVals :=
      if f.hasBlockedDays then f.rows.filterMap fun r => r.blocked_days else []
    Except.ok
      { cycle_time_days := cycleCol
        lead_time_days := leadCol
        throughput := throughputOf doneNames f
        velocity := velocityOf doneNames f
        reopen_rate_pct := reopenRateOf doneNames f.rows
        avg_cycle_time_days := listMean cycles
        avg_lead_time_days := listMean leads
        cycle_time_std_days :=
          if 1 < cycles.length then some (sqrtQ (sampleVariance cycles)) else none
        blocked_avg_days :=
          if f.hasBlockedDays then listMean blockedVals else none }

/-- Python float truthiness on an optional value: `None` and `0.0` are
falsy. -/
def truthyQ : Option ℚ → Bool
  | none => false
  | some x => x != 0

/-- Recommendation text of rule 1 (backlog grooming). -/
def recGrooming : String :=
  "Reduce waiting time before work starts; clarify backlog grooming and prioritization."

/-- Recommendation text of rule 2 (blockers). -/
def recBlockers : String :=
  "Investigate frequent blockers; define escalation paths and remove systemic impediments."

/-- Recommendation text of rule 3 (reopen churn). -/
def recReopen : String :=
  "Tighten acceptance criteria and improve QA to reduce reopen churn."

/-- Recommendation text of rule 4 (cycle-time variance). -/
def recVariance : String :=
  "High variance in cycle time; slice work smaller and limit WIP for predictability."

/-- Rule 1 guard as written (src/report.py lines 37-41): Python `and` over
`m.avg_cycle_time_days` and `m.avg_lead_time_days`, so a `0.0` mean is
falsy and suppresses the rule. -/
def rule1Fires (m : MetricsResult) : Bool :=
  match m.avg_cycle_time_days, m.avg_lead_time_days with
  | some c, some l => c != 0 && l != 0 && decide (l - c > 2)
  | _, _ => false

/-- Rule 2 guard as written (src/report.py line 45): `m.blocked_avg_days
and m.blocked_avg_days > 0.5`. -/
def rule2Fires (m : MetricsResult) : Bool :=
  match m.blocked_avg_days with
  | some b => b != 0 && decide (b > 1 / 2)
  | none => false

/-- Rule 3 guard as written (src/report.py line 49):
`m.reopen_rate_pct > 10.0` — the rate is a plain float, never `None`. -/
def rule3Fires (m : MetricsResult) : Bool :=
  decide (m.reopen_rate_pct > 10)

/-- Rule 4 guard as written (src/report.py line 53): `m.cycle_time_std_days
and m.cycle_time_std_days > 3.0`. -/
def rule4Fires (m : MetricsResult) : Bool :=
  match m.cycle_time_std_days with
  | some s => s != 0 && decide (s > 3)
  | none => false

/-- The `recs` list built by the four sequential `if` blocks of
`generate_summary_markdown` (src/report.py lines 36-56 and the identical
src/src/report.py lines 50-70). -/
def recsAll (m : MetricsResult) : List String :=
  (if rule1Fires m then [recGrooming] else [])
    ++ (if rule2Fires m then [recBlockers] else [])
    ++ (if rule3Fires m then [recReopen] else [])
    ++ (if rule4Fires m then [recVariance] else [])

/-- The recommendations actually emitted: `recs[:3]`
(src/report.py line 60). -/
def recsOutput (m : MetricsResult) : List String :=
  (recsAll m).take 3

/-- One raw change-log item (a field change inside one history entry of
`issue.changelog.histories`). -/
structure ChangeItem where
  field : Option String
  fromString : Option String
  toString : Option String
deriving Repr, DecidableEq

/-- One raw change-log history entry. `created` is the outcome of
`_parse_datetime(hist.created)` (src/src/data_processing.py lines 20-27):
`none` embeds a missing or unparsable timestamp. -/
structure RawHistoryEntry where
  created : Option Timestamp
  items : List ChangeItem
deriving Repr, DecidableEq

/-- The status transitions contributed by one raw history entry
(src/src/data_processing.py lines 90-104): the whole entry is skipped when
its timestamp fails to parse (`if ht is None: continue`), and only items
whose changed field is `"status"` are kept. -/
def statusItemsOf (e : RawHistoryEntry) : List StatusTransition :=
  match e.created with
  | none => []
  | some ts =>
    (e.items.filter fun it => it.field == some "status").map fun it =>
      { t := ts, fromStatus := it.fromString, toStatus := it.toString }

/-- `_extract_status_history` (src/src/data_processing.py lines 84-108):
collect the status items of every history entry in delivery order, then
`history.sort(key=lambda t: t[0])` — a stable ascending sort by
timestamp. -/
def extractStatusHistory (entries : List RawHistoryEntry) : List StatusTransition :=
  ((entries.map statusItemsOf).flatten).mergeSort fun a b => decide (a.t ≤ b.t)

/-- A history is chronologically sorted (the invariant established by the
normalizer). -/
def historySorted (h : List StatusTransition) : Prop :=
  h.Sorted fun a b => a.t ≤ b.t

/-- Spec wording (§4.3 step 2): `reopenRatePct = 100 × (count of completed
∧ reopened) / count of completed`, or `0.0` if the completed count is
zero — with "completed" = defined `doneAt` and "reopened" = `wasReopened`. -/
def specReopenRatePct (doneNames : List String) (rows : List IssueRow) : ℚ :=
  let completed := rows.filter fun r => (doneTimeOfRow doneNames r).isSome
  let reopenedCompleted := completed.filter fun r =>
    wasReopened r.status_history doneNames
  if completed.length = 0 then 0
  else 100 * (reopenedCompleted.length : ℚ) / (completed.length : ℚ)

/-- Spec wording (§4.3 step 3): the completed issues that also carry a
sprint id — the only rows over which throughput/velocity aggregate. -/
def specCompletedWithSprint (doneNames : List String) (f : Frame) : List IssueRow :=
  if f.hasSprintId then
    f.rows.filter fun r =>
      (doneTimeOfRow doneNames r).isSome && r.sprint_id.isSome
  else []

/-- Spec wording (§4.3 step 3): `velocity[s] = sum of sizeEstimate over
group s` treating missing estimates as 0, with one entry per sprint group. -/
def specVelocity (doneNames : List String) (f : Frame) : List (Int × ℚ) :=
  let cws := specCompletedWithSprint doneNames f
  (sprintKeys cws).map fun s =>
    (s,
      ((cws.filter fun r => r.sprint_id = some s).map fun r =>
        r.story_points.getD 0).sum)

/-- Rule 1 as the claim states it: fires whenever both means are defined
and `leadTimeMean - cycleTimeMean > 2.0` (no nonzero requirement). -/
def claimRule1 (m : MetricsResult) : Bool :=
  match m.avg_cycle_time_days, m.avg_lead_time_days with
  | some c, some l => decide (l - c > 2)
  | _, _ => false

/-- Rule 2 as the claim states it: `blockedDaysMean > 0.5` over the defined
value. -/
def claimRule2 (m : MetricsResult) : Bool :=
  match m.blocked_avg_days with
  | some b => decide (b > 1 / 2)
  | none => false

/-- Rule 3 as the claim states it: `reopenRatePct > 10.0`. -/
def claimRule3 (m : MetricsResult) : Bool :=
  decide (m.reopen_rate_pct > 10)

/-- Rule 4 as the claim states it: `cycleTimeStdev > 3.0` over the defined
value. -/
def claimRule4 (m : MetricsResult) : Bool :=
  match m.cycle_time_std_days with
  | some s => decide (s > 3)
  | none => false

/-- The recommendation list as the claim describes it: the first at most
three of the four threshold rules that fire, in the fixed order. -/
def claimRecs (m : MetricsResult) : List String :=
  ((if claimRule1 m then [recGrooming] else [])
    ++ (if claimRule2 m then [recBlockers] else [])
    ++ (if claimRule3 m then [recReopen] else [])
    ++ (if claimRule4 m then [recVariance] else [])).take 3

/-- The amended rule 1: as `claimRule1`, but both means must additionally
be nonzero (Python float truthiness in the source's guard). -/
def amendedRule1 (m : MetricsResult) : Bool :=
  match m.avg_cycle_time_days, m.avg_lead_time_days with
  | some c, some l => decide (c ≠ 0) && decide (l ≠ 0) && decide (l - c > 2)
  | _, _ => false

/-- The recommendation list under the amended reading: rules 2-4 as the
claim states them, rule 1 amended with the nonzero requirement. -/
def amendedRecs (m : MetricsResult) : List String :=
  ((if amendedRule1 m then [recGrooming] else [])
    ++ (if claimRule2 m then [recBlockers] else [])
    ++ (if claimRule3 m then [recReopen] else [])
    ++ (if claimRule4 m then [recVariance] else [])).take 3

/-! ## Helper lemmas about the durations mapping -/

theorem durTotal_nil : durTotal [] = 0 := rfl

theorem durTotal_cons (p : String × ℚ) (m : Durations) :
    durTotal (p :: m) = p.2 + durTotal m := by
  simp [durTotal]

/-- Accruing `v` into any bucket raises the mapping's total by exactly `v`. -/
theorem addDur_total (m : Durations) (k : String) (v : ℚ) :
    durTotal (addDur m k v) = durTotal m + v := by
  induction m with
  | nil => simp [addDur, durTotal]
  | cons p rest ih =>
    obtain ⟨k0, v0⟩ := p
    by_cases h : k0 = k
    · simp [addDur, h, durTotal_cons]
      ring
    · simp [addDur, h, durTotal_cons, ih]
      ring

/-- The loop of `_time_in_status` telescopes: when every transition carries
a `toStatus`, a pass over a nonempty history adds exactly
`last timestamp - first timestamp` to the accumulator's total. -/
theorem timeInStatusGo_total :
    ∀ (h : List StatusTransition) (hne : h ≠ []) (acc : Durations),
      (∀ tr ∈ h, tr.toStatus ≠ none) →
      durTotal (timeInStatusGo acc h) =
        durTotal acc + ((h.getLast hne).t - (h.head hne).t)
  | [], hne, _, _ => absurd rfl hne
  | [x], _, acc, _ => by
    simp [timeInStatusGo]
  | x :: y :: rest, _, acc, hall => by
    have hx : x.toStatus ≠ none := hall x (by simp)
    obtain ⟨s, hs⟩ := Option.ne_none_iff_exists'.mp hx
    have hrec :=
      timeInStatusGo_total (y :: rest) (by simp)
        (addDur acc s (y.t - x.t))
        (fun tr htr => hall tr (by simp [htr]))
    simp only [timeInStatusGo, hs] at hrec ⊢
    rw [hrec, addDur_total]
    rw [List.getLast_cons (by simp : (y :: rest : List StatusTransition) ≠ [])]
    simp
    ring

/-- `addDur` keeps every bucket nonnegative when the added duration is. -/
theorem addDur_nonneg (m : Durations) (k : String) (v : ℚ)
    (hm : ∀ p ∈ m, 0 ≤ p.2) (hv : 0 ≤ v) :
    ∀ p ∈ addDur m k v, 0 ≤ p.2 := by
  induction m with
  | nil =>
    intro p hp
    simp [addDur] at hp
    simp [hp, hv]
  | cons q rest ih =>
    obtain ⟨k0, v0⟩ := q
    intro p hp
    by_cases h : k0 = k
    · simp [addDur, h] at hp
      rcases hp with hp | hp
      · have h0 : 0 ≤ v0 := hm (k0, v0) (by simp)
        simp [hp]
        positivity
      · exact hm p (by simp [hp])
    · simp [addDur, h] at hp
      rcases hp with hp | hp
      · exact hm p (by simp [hp])
      · exact ih (fun q hq => hm q (by simp [hq])) p hp

/-- Over a chronologically sorted history every accrued interval is
nonnegative, so the loop of `_time_in_status` keeps all buckets
nonnegative. -/
theorem timeInStatusGo_nonneg :
    ∀ (h : List StatusTransition), historySorted h →
      ∀ (acc : Durations), (∀ p ∈ acc, 0 ≤ p.2) →
      ∀ p ∈ timeInStatusGo acc h, 0 ≤ p.2
  | [], _, acc, hacc => by
    simpa [timeInStatusGo] using hacc
  | [x], _, acc, hacc => by
    simpa [timeInStatusGo] using hacc
  | x :: y :: rest, hsorted, acc, hacc => by
    have hxy : x.t ≤ y.t := (List.pairwise_cons.mp hsorted).1 y (by simp)
    have htail : historySorted (y :: rest) := (List.pairwise_cons.mp hsorted).2
    intro p hp
    cases hx : x.toStatus with
    | none =>
      refine timeInStatusGo_nonneg (y :: rest) htail acc hacc p ?_
      simpa [timeInStatusGo, hx] using hp
    | some s =>
      refine timeInStatusGo_nonneg (y :: rest) htail
        (addDur acc s (y.t - x.t))
        (addDur_nonneg acc s (y.t - x.t) hacc (by linarith)) p ?_
      simpa [timeInStatusGo, hx] using hp

/-- Every bucket of `_time_in_status` is nonnegative on a sorted history. -/
theorem timeInStatus_nonneg (h : List StatusTransition)
    (hsorted : historySorted h) :
    ∀ p ∈ timeInStatus h, 0 ≤ p.2 := by
  intro p hp
  by_cases hlen : h.length < 2
  · simp [timeInStatus, hlen] at hp
  · exact timeInStatusGo_nonneg h hsorted [] (by simp) p
      (by simpa [timeInStatus, hlen] using hp)

/-- The blocked total of a durations mapping with nonnegative buckets is
nonnegative. -/
theorem blockedTotalSeconds_nonneg (dur : Durations)
    (hdur : ∀ p ∈ dur, 0 ≤ p.2) :
    0 ≤ blockedTotalSeconds dur := by
  refine List.sum_nonneg ?_
  intro v hv
  simp only [blockedTotalSeconds, List.mem_map] at hv
  obtain ⟨p, hp, rfl⟩ := hv
  exact hdur p (List.mem_of_mem_filter hp)

/-- When `blocked_days` is defined, it is the blocked total in days and the
total was nonzero. -/
theorem blockedDaysOfDurations_some (dur : Durations) (q : ℚ)
    (hq : blockedDaysOfDurations dur = some q) :
    blockedTotalSeconds dur ≠ 0 ∧ q = blockedTotalSeconds dur / 86400 := by
  by_cases h : blockedTotalSeconds dur = 0
  · simp [blockedDaysOfDurations, h] at hq
  · refine ⟨h, ?_⟩
    simp [blockedDaysOfDurations, h] at hq
    exact hq.symm

/-- On a durations mapping with nonnegative buckets, a defined
`blocked_days` value is strictly positive. -/
theorem blockedDaysOfDurations_pos (dur : Durations) (q : ℚ)
    (hdur : ∀ p ∈ dur, 0 ≤ p.2)
    (hq : blockedDaysOfDurations dur = some q) : 0 < q := by
  obtain ⟨hne, rfl⟩ := blockedDaysOfDurations_some dur q hq
  have h0 : 0 ≤ blockedTotalSeconds dur := blockedTotalSeconds_nonneg dur hdur
  have : 0 < blockedTotalSeconds dur := lt_of_le_of_ne h0 (Ne.symm hne)
  positivity

/-! ## Helper lemmas about the first/last entry scans -/

theorem firstTimeToStatus_eq_none (h : List StatusTransition) (targets : List String) :
    firstTimeToStatus h targets = none ↔
      ∀ tr ∈ h, inNames tr.toStatus targets = false := by
  induction h with
  | nil => simp [firstTimeToStatus]
  | cons x rest ih =>
    by_cases hx : inNames x.toStatus targets
    · simp [firstTimeToStatus, hx]
    · simp [firstTimeToStatus, hx, ih]

theorem firstTimeToStatus_mem (h : List StatusTransition) (targets : List String)
    (t : Timestamp) (ht : firstTimeToStatus h targets = some t) :
    ∃ tr ∈ h, inNames tr.toStatus targets = true ∧ tr.t = t := by
  induction h with
  | nil => simp [firstTimeToStatus] at ht
  | cons x rest ih =>
    by_cases hx : inNames x.toStatus targets
    · simp [firstTimeToStatus, hx] at ht
      exact ⟨x, by simp, hx, ht⟩
    · simp [firstTimeToStatus, hx] at ht
      obtain ⟨tr, htr, hmatch, hteq⟩ := ih ht
      exact ⟨tr, by simp [htr], hmatch, hteq⟩

theorem firstTimeToStatus_append (l1 l2 : List StatusTransition)
    (targets : List String) :
    firstTimeToStatus (l1 ++ l2) targets =
      (firstTimeToStatus l1 targets).or (firstTimeToStatus l2 targets) := by
  induction l1 with
  | nil => simp [firstTimeToStatus]
  | cons x rest ih =>
    by_cases hx : inNames x.toStatus targets
    · simp [firstTimeToStatus, hx]
    · simp [firstTimeToStatus, hx, ih]

theorem lastTimeToStatus_cons (x : StatusTransition) (h : List StatusTransition)
    (targets : List String) :
    lastTimeToStatus (x :: h) targets =
      (lastTimeToStatus h targets).or
        (if inNames x.toStatus targets then some x.t else none) := by
  simp only [lastTimeToStatus, List.reverse_cons, firstTimeToStatus_append]
  by_cases hx : inNames x.toStatus targets <;> simp [firstTimeToStatus, hx]

theorem lastTimeToStatus_eq_none (h : List StatusTransition) (targets : List String) :
    lastTimeToStatus h targets = none ↔
      ∀ tr ∈ h, inNames tr.toStatus targets = false := by
  simp [lastTimeToStatus, firstTimeToStatus_eq_none]

theorem lastTimeToStatus_mem (h : List StatusTransition) (targets : List String)
    (t : Timestamp) (ht : lastTimeToStatus h targets = some t) :
    ∃ tr ∈ h, inNames tr.toStatus targets = true ∧ tr.t = t := by
  obtain ⟨tr, htr, hmatch, hteq⟩ := firstTimeToStatus_mem h.reverse targets t ht
  exact ⟨tr, List.mem_reverse.mp htr, hmatch, hteq⟩

/-- On a sorted history, the timestamp returned by the reverse scan is an
upper bound of all matching transitions: it really is the most recent
entry into a target status. -/
theorem lastTimeToStatus_isMax :
    ∀ (h : List StatusTransition) (targets : List String) (t : Timestamp),
      historySorted h → lastTimeToStatus h targets = some t →
      ∀ tr ∈ h, inNames tr.toStatus targets = true → tr.t ≤ t
  | [], _, _, _, _ => by simp
  | x :: rest, targets, t, hs, ht => by
    have hxrest := List.pairwise_cons.mp hs
    rw [lastTimeToStatus_cons] at ht
    intro tr htr hmatch
    cases e : lastTimeToStatus rest targets with
    | some t0 =>
      rw [e] at ht
      simp only [Option.or] at ht
      have ht0 : t0 = t := by simpa using ht
      obtain ⟨tr0, htr0, _, hteq0⟩ := lastTimeToStatus_mem rest targets t0 e
      rcases List.mem_cons.mp htr with rfl | htr
      · exact ht0 ▸ hteq0 ▸ hxrest.1 tr0 htr0
      · exact ht0 ▸ lastTimeToStatus_isMax rest targets t0 hxrest.2 e tr htr hmatch
    | none =>
      rw [e] at ht
      simp only [Option.or] at ht
      rcases List.mem_cons.mp htr with rfl | htr
      · by_cases hx : inNames tr.toStatus targets
        · simp [hx] at ht
          simp [ht]
        · simp [hmatch] at hx
      · have := (lastTimeToStatus_eq_none rest targets).mp e tr htr
        simp [hmatch] at this

/-! ## Helper lemmas about the reopen state machine -/

/-- In state `DONE_SEEN`, the scan returns `true` exactly when some
remaining transition leaves the done set. -/
theorem wasReopenedGo_true (doneNames : List String) :
    ∀ l, wasReopenedGo doneNames true l = true ↔
      ∃ b ∈ l, inNames b.toStatus doneNames = false
  | [] => by simp [wasReopenedGo]
  | x :: rest => by
    by_cases hx : inNames x.toStatus doneNames
    · rw [show wasReopenedGo doneNames true (x :: rest)
          = wasReopenedGo doneNames true rest by simp [wasReopenedGo, hx]]
      rw [wasReopenedGo_true doneNames rest]
      constructor
      · rintro ⟨b, hb, hbf⟩
        exact ⟨b, by simp [hb], hbf⟩
      · rintro ⟨b, hb, hbf⟩
        rcases List.mem_cons.mp hb with rfl | hb
        · simp [hx] at hbf
        · exact ⟨b, hb, hbf⟩
    · constructor
      · intro
        exact ⟨x, by simp, by simpa using hx⟩
      · intro
        simp [wasReopenedGo, hx]

/-- In state `NOT_DONE`, the scan returns `true` exactly when some done
transition is followed, later in the list, by a non-done transition. -/
theorem wasReopenedGo_false (doneNames : List String) :
    ∀ l, wasReopenedGo doneNames false l = true ↔
      ∃ l1 a l2, l = l1 ++ a :: l2 ∧ inNames a.toStatus doneNames = true ∧
        ∃ b ∈ l2, inNames b.toStatus doneNames = false
  | [] => by
    constructor
    · intro hcontra
      simp [wasReopenedGo] at hcontra
    · rintro ⟨l1, a, l2, heq, -⟩
      cases l1 <;> simp at heq
  | x :: rest => by
    by_cases hx : inNames x.toStatus doneNames
    · rw [show wasReopenedGo doneNames false (x :: rest)
          = wasReopenedGo doneNames true rest by simp [wasReopenedGo, hx]]
      rw [wasReopenedGo_true doneNames rest]
      constructor
      · rintro ⟨b, hb, hbf⟩
        exact ⟨[], x, rest, rfl, hx, b, hb, hbf⟩
      · rintro ⟨l1, a, l2, heq, ha, b, hb, hbf⟩
        cases l1 with
        | nil =>
          simp only [List.nil_append, List.cons.injEq] at heq
          exact ⟨b, heq.2 ▸ hb, hbf⟩
        | cons z l1t =>
          simp only [List.cons_append, List.cons.injEq] at heq
          exact ⟨b, heq.2 ▸ List.mem_append_right l1t (List.mem_cons_of_mem a hb), hbf⟩
    · rw [show wasReopenedGo doneNames false (x :: rest)
          = wasReopenedGo doneNames false rest by simp [wasReopenedGo, hx]]
      rw [wasReopenedGo_false doneNames rest]
      constructor
      · rintro ⟨l1, a, l2, heq, ha, hb⟩
        exact ⟨x :: l1, a, l2, by simp [heq], ha, hb⟩
      · rintro ⟨l1, a, l2, heq, ha, hb⟩
        cases l1 with
        | nil =>
          simp only [List.nil_append, List.cons.injEq] at heq
          rw [heq.1] at hx
          simp [ha] at hx
        | cons z l1t =>
          simp only [List.cons_append, List.cons.injEq] at heq
          exact ⟨l1t, a, l2, heq.2, ha, hb⟩

/-! ## Claim C3 -/

/-- Claim C3, as stated, is false: `_time_in_status` skips any interval
whose starting transition has `toStatus = None`, so the bucket total can
fall short of the span. On the history
`[(0,-,None), (1,-,"A"), (2,-,"B")]` the buckets sum to `1` while the span
between the first and last transition timestamps is `2 - 0`. -/
theorem claim_C3_counterexample :
    durTotal (timeInStatus
        [⟨0, none, none⟩, ⟨1, none, some "A"⟩, ⟨2, none, some "B"⟩])
      ≠ (2 : ℚ) - 0 ∧
    durTotal (timeInStatus
        [⟨0, none, none⟩, ⟨1, none, some "A"⟩, ⟨2, none, some "B"⟩]) = 1 := by
  constructor <;>
    norm_num [durTotal, timeInStatus, timeInStatusGo, addDur]

/-- Claim C3, amended: a history of length `< 2` yields the empty mapping,
and for a history of length `≥ 2` **all of whose transitions carry a
`toStatus`** the sum of all duration buckets equals the span between the
first and the last transition timestamp (the amendment adds the
non-`None` proviso forced by the counterexample). -/
theorem claim_C3 :
    (∀ h : List StatusTransition, h.length < 2 → timeInStatus h = []) ∧
    (∀ (h : List StatusTransition) (hne : h ≠ []), 2 ≤ h.length →
      (∀ tr ∈ h, tr.toStatus ≠ none) →
      durTotal (timeInStatus h) = (h.getLast hne).t - (h.head hne).t) := by
  constructor
  · intro h hlen
    simp [timeInStatus, hlen]
  · intro h hne hlen hall
    have hnot : ¬h.length < 2 := by omega
    rw [show timeInStatus h = timeInStatusGo [] h by simp [timeInStatus, hnot]]
    rw [timeInStatusGo_total h hne [] hall]
    simp [durTotal]

/-- Witness for C3 at the history `[(0,-,"A"), (5,-,"B")]`: the bucket
total equals the span `5 - 0`. -/
theorem claim_C3_witness :
    2 ≤ ([⟨0, none, some "A"⟩, ⟨5, none, some "B"⟩] :
        List StatusTransition).length ∧
    durTotal (timeInStatus [⟨0, none, some "A"⟩, ⟨5, none, some "B"⟩])
      = 5 - 0 := by
  refine ⟨by decide, ?_⟩
  have h := claim_C3.2 [⟨0, none, some "A"⟩, ⟨5, none, some "B"⟩]
    (by decide) (by decide) (by decide)
  simpa using h

/-! ## Claim C4 -/

/-- Claim C4: `_was_reopened` returns `true` iff some transition into the
done set is followed later by a transition out of it; in particular it is
`false` when no transition enters the done set, and `false` when every
transition after a done transition is again a done transition. -/
theorem claim_C4 :
    ∀ (h : List StatusTransition) (doneNames : List String),
      (wasReopened h doneNames = true ↔
        ∃ l1 a l2 b l3, h = l1 ++ a :: (l2 ++ b :: l3) ∧
          inNames a.toStatus doneNames = true ∧
          inNames b.toStatus doneNames = false) ∧
      ((∀ tr ∈ h, inNames tr.toStatus doneNames = false) →
        wasReopened h doneNames = false) ∧
      ((∀ l1 a l2, h = l1 ++ a :: l2 → inNames a.toStatus doneNames = true →
          ∀ b ∈ l2, inNames b.toStatus doneNames = true) →
        wasReopened h doneNames = false) := by
  intro h doneNames
  have hiff : wasReopened h doneNames = true ↔
      ∃ l1 a l2 b l3, h = l1 ++ a :: (l2 ++ b :: l3) ∧
        inNames a.toStatus doneNames = true ∧
        inNames b.toStatus doneNames = false := by
    rw [wasReopened, wasReopenedGo_false]
    constructor
    · rintro ⟨l1, a, l2, heq, ha, b, hb, hbf⟩
      obtain ⟨l2a, l3, rfl⟩ := List.append_of_mem hb
      exact ⟨l1, a, l2a, b, l3, heq, ha, hbf⟩
    · rintro ⟨l1, a, l2, b, l3, heq, ha, hbf⟩
      exact ⟨l1, a, l2 ++ b :: l3, heq, ha, b,
        List.mem_append_right l2 (List.mem_cons_self b l3), hbf⟩
  refine ⟨hiff, ?_, ?_⟩
  · intro hnone
    rcases hw : wasReopened h doneNames with _ | _
    · rfl
    · exfalso
      obtain ⟨l1, a, l2, b, l3, heq, ha, -⟩ := hiff.mp hw
      have : a ∈ h := by
        rw [heq]
        exact List.mem_append_right l1 (List.mem_cons_self a _)
      have := hnone a this
      simp [ha] at this
  · intro hstay
    rcases hw : wasReopened h doneNames with _ | _
    · rfl
    · exfalso
      obtain ⟨l1, a, l2, b, l3, heq, ha, hbf⟩ := hiff.mp hw
      have hb : b ∈ l2 ++ b :: l3 :=
        List.mem_append_right l2 (List.mem_cons_self b l3)
      have := hstay l1 a (l2 ++ b :: l3) heq ha b hb
      simp [this] at hbf

/-! ## Claim C10 -/

/-- Claim C10: `compute_status_durations_column` reports `blocked_days` as
undefined (`None`) exactly when the accumulated duration over all
blocked-named buckets is zero — also when a blocked-named bucket exists
with zero total — and as a strictly positive number of days otherwise
(histories are chronologically sorted, as the normalizer guarantees). -/
theorem claim_C10 :
    ∀ (f g : Frame), (∀ r ∈ f.rows, historySorted r.status_history) →
      computeStatusDurationsColumn f = Except.ok g →
      ∀ r ∈ g.rows,
        (r.blocked_days = none ↔
          blockedTotalSeconds (timeInStatus r.status_history) = 0) ∧
        ∀ q, r.blocked_days = some q → 0 < q := by
  intro f g hsorted hok r hr
  rw [computeStatusDurationsColumn] at hok
  by_cases hcol : f.hasStatusHistory = false
  · simp [hcol] at hok
  · simp only [if_neg hcol] at hok
    obtain rfl := Except.ok.inj hok
    obtain ⟨r0, hr0, rfl⟩ := List.mem_map.mp hr
    refine ⟨?_, ?_⟩
    · show blockedDaysOfDurations (timeInStatus r0.status_history) = none ↔ _
      by_cases h0 : blockedTotalSeconds (timeInStatus r0.status_history) = 0 <;>
        simp [blockedDaysOfDurations, h0]
    · intro q hq
      exact blockedDaysOfDurations_pos _ q
        (timeInStatus_nonneg _ (hsorted r0 hr0)) hq

/-- Row whose blocked-named bucket exists but has zero accumulated
duration. -/
def rowBlockedZero : IssueRow :=
  { key := some "Z-1"
    created := none
    resolved := none
    story_points := none
    sprint_id := none
    status_history := [⟨0, none, some "Blocked"⟩, ⟨0, some "Blocked", some "Done"⟩]
    status_durations := []
    blocked_days := none }

/-- Row that spent one full day in a blocked-named status. -/
def rowBlockedPos : IssueRow :=
  { key := some "P-1"
    created := none
    resolved := none
    story_points := none
    sprint_id := none
    status_history :=
      [⟨0, none, some "Blocked"⟩, ⟨86400, some "Blocked", some "Done"⟩]
    status_durations := []
    blocked_days := none }

/-- Two-row frame exercising both blocked-time cases. -/
def frameBlocked : Frame :=
  { rows := [rowBlockedZero, rowBlockedPos]
    hasStatusHistory := true
    hasCreated := true
    hasResolved := true
    hasSprintId := true
    hasStoryPoints := true
    hasBlockedDays := false }

/-- The output of `compute_status_durations_column` on `frameBlocked`. -/
def frameBlockedOut : Frame :=
  { rows :=
      [{ rowBlockedZero with
          status_durations := [("Blocked", 0)]
          blocked_days := none },
       { rowBlockedPos with
          status_durations := [("Blocked", 86400)]
          blocked_days := some 1 }]
    hasStatusHistory := true
    hasCreated := true
    hasResolved := true
    hasSprintId := true
    hasStoryPoints := true
    hasBlockedDays := true }

/-- Witness for C10 on `frameBlocked`: the zero-duration blocked bucket
yields `None` and the one-day blocked bucket yields a positive value. -/
theorem claim_C10_witness :
    (∀ r ∈ frameBlocked.rows, historySorted r.status_history) ∧
    computeStatusDurationsColumn frameBlocked = Except.ok frameBlockedOut ∧
    ∀ r ∈ frameBlockedOut.rows,
      (r.blocked_days = none ↔
        blockedTotalSeconds (timeInStatus r.status_history) = 0) ∧
      ∀ q, r.blocked_days = some q → 0 < q := by
  have hsorted : ∀ r ∈ frameBlocked.rows, historySorted r.status_history := by
    intro r hr
    simp only [frameBlocked, rowBlockedZero, rowBlockedPos, List.mem_cons,
      List.mem_singleton] at hr
    rcases hr with rfl | rfl | h
    · simp [historySorted]
    · norm_num [historySorted]
    · simp at h
  have hok : computeStatusDurationsColumn frameBlocked = Except.ok frameBlockedOut := by
    have hB : isBlockedName "Blocked" = true := by decide
    have hne : ("Blocked" != "") = true := by decide
    simp only [computeStatusDurationsColumn, frameBlocked, frameBlockedOut,
      rowBlockedZero, rowBlockedPos]
    norm_num [timeInStatus, timeInStatusGo, addDur, blockedDaysOfDurations,
      blockedTotalSeconds, hB, hne, List.filter_cons]
  exact ⟨hsorted, hok, fun r hr => claim_C10 frameBlocked frameBlockedOut hsorted hok r hr⟩

/-! ## Claim C1 -/

/-- Row whose authoritative resolution precedes its first entry into an
in-progress status: `resolved = 0` but the only transition (into
"In Progress") is at `t = 86400`. -/
def rowNegCycle : IssueRow :=
  { key := some "N-1"
    created := some 0
    resolved := some 0
    story_points := none
    sprint_id := none
    status_history := [⟨86400, none, some "In Progress"⟩]
    status_durations := []
    blocked_days := none }

/-- One-row frame around `rowNegCycle`, with all columns present. -/
def frameNegCycle : Frame :=
  { rows := [rowNegCycle]
    hasStatusHistory := true
    hasCreated := true
    hasResolved := true
    hasSprintId := true
    hasStoryPoints := true
    hasBlockedDays := true }

/-- Claim C1, as stated, is false: `compute_all_metrics` performs no
clamping, so on `frameNegCycle` the output `cycle_time_days` column holds
the defined value `-1` — a negative number, not "undefined". -/
theorem claim_C1_counterexample :
    (computeAllMetrics (fun q => q) frameNegCycle ["In Progress"] ["Done"]).map
        (fun m => m.cycle_time_days) = Except.ok [some (-1)] ∧
      ¬(0 : ℚ) ≤ -1 := by
  constructor
  · norm_num [computeAllMetrics, frameNegCycle, rowNegCycle, cycleTimeDaysOfRow,
      doneTimeOfRow, inProgressTimeOfRow, firstTimeToStatus, lastTimeToStatus,
      inNames, Except.map]
  · norm_num

/-- Claim C1, amended: `blocked_days` is strictly positive whenever defined
(for sorted histories); `cycle_time_days` and `lead_time_days` are
undefined when an endpoint is missing, but when defined they equal the
*signed* endpoint difference in days, which can be negative when the
endpoints are out of order — no sentinel value is ever used. -/
theorem claim_C1 :
    (∀ (f g : Frame), (∀ r ∈ f.rows, historySorted r.status_history) →
      computeStatusDurationsColumn f = Except.ok g →
      ∀ r ∈ g.rows, ∀ q, r.blocked_days = some q → 0 < q) ∧
    (∀ (inProgressNames doneNames : List String) (r : IssueRow) (q : ℚ),
      cycleTimeDaysOfRow inProgressNames doneNames r = some q →
      ∃ d i, doneTimeOfRow doneNames r = some d ∧
        inProgressTimeOfRow inProgressNames r = some i ∧ q = (d - i) / 86400) ∧
    (∀ (r : IssueRow) (q : ℚ), leadTimeDaysOfRow r = some q →
      ∃ res cre, r.resolved = some res ∧ r.created = some cre ∧
        q = (res - cre) / 86400) := by
  refine ⟨?_, ?_, ?_⟩
  · intro f g hsorted hok r hr q hq
    rw [computeStatusDurationsColumn] at hok
    by_cases hcol : f.hasStatusHistory = false
    · simp [hcol] at hok
    · simp only [if_neg hcol] at hok
      obtain rfl := Except.ok.inj hok
      obtain ⟨r0, hr0, rfl⟩ := List.mem_map.mp hr
      exact blockedDaysOfDurations_pos _ q
        (timeInStatus_nonneg _ (hsorted r0 hr0)) hq
  · intro inProgressNames doneNames r q hq
    rw [cycleTimeDaysOfRow] at hq
    cases hd : doneTimeOfRow doneNames r with
    | none => rw [hd] at hq; simp at hq
    | some d =>
      cases hi : inProgressTimeOfRow inProgressNames r with
      | none => rw [hd, hi] at hq; simp at hq
      | some i =>
        rw [hd, hi] at hq
        exact ⟨d, i, rfl, rfl, by simpa using hq.symm⟩
  · intro r q hq
    rw [leadTimeDaysOfRow] at hq
    cases hres : r.resolved with
    | none => rw [hres] at hq; simp at hq
    | some res =>
      cases hcre : r.created with
      | none => rw [hres, hcre] at hq; simp at hq
      | some cre =>
        rw [hres, hcre] at hq
        exact ⟨res, cre, rfl, rfl, by simpa using hq.symm⟩

/-- Witness for C1: the blocked part at `frameBlocked` and the cycle-time
part at `rowNegCycle` (whose defined cycle time `-1` is exactly the signed
difference `(0 - 86400) / 86400`). -/
theorem claim_C1_witness :
    (∀ r ∈ frameBlockedOut.rows, ∀ q, r.blocked_days = some q → 0 < q) ∧
    (∃ d i, doneTimeOfRow ["Done"] rowNegCycle = some d ∧
      inProgressTimeOfRow ["In Progress"] rowNegCycle = some i ∧
      (-1 : ℚ) = (d - i) / 86400) := by
  constructor
  · intro r hr q hq
    refine claim_C1.1 frameBlocked frameBlockedOut ?_ ?_ r hr q hq
    · intro r0 hr0
      simp only [frameBlocked, rowBlockedZero, rowBlockedPos, List.mem_cons,
        List.mem_singleton] at hr0
      rcases hr0 with rfl | rfl | h
      · simp [historySorted]
      · norm_num [historySorted]
      · simp at h
    · have hB : isBlockedName "Blocked" = true := by decide
      have hne : ("Blocked" != "") = true := by decide
      simp only [computeStatusDurationsColumn, frameBlocked, frameBlockedOut,
        rowBlockedZero, rowBlockedPos]
      norm_num [timeInStatus, timeInStatusGo, addDur, blockedDaysOfDurations,
        blockedTotalSeconds, hB, hne, List.filter_cons]
  · refine claim_C1.2.1 ["In Progress"] ["Done"] rowNegCycle (-1) ?_
    norm_num [cycleTimeDaysOfRow, doneTimeOfRow, inProgressTimeOfRow,
      firstTimeToStatus, lastTimeToStatus, inNames, rowNegCycle]

/-! ## Claim C2 -/

/-- Claim C2 is contradicted by the code: zero issues supplied means
`build_issue_rows_dataframe` returns `pd.DataFrame([])`, which has **no
columns**, so `compute_all_metrics` raises `KeyError` at
`dfm["status_history"]` instead of returning an empty `MetricsResult`. -/
theorem claim_C2_code_bug :
    ∀ (sqrtQ : ℚ → ℚ) (inProgressNames doneNames : List String),
      computeAllMetrics sqrtQ emptyFrame inProgressNames doneNames
        = Except.error "KeyError: status_history" := by
  intro sqrtQ inProgressNames doneNames
  rfl

/-! ## Claim C5 -/

/-- Claim C5: the derived done time prefers the authoritative `resolved`
timestamp; only when `resolved` is absent does it fall back to the last
transition into a done-named status — the most recent such transition on a
sorted history, and undefined when no transition enters the done set. -/
theorem claim_C5 :
    ∀ (doneNames : List String) (r : IssueRow),
      (∀ ts, r.resolved = some ts → doneTimeOfRow doneNames r = some ts) ∧
      (r.resolved = none →
        doneTimeOfRow doneNames r = lastTimeToStatus r.status_history doneNames ∧
        (doneTimeOfRow doneNames r = none ↔
          ∀ tr ∈ r.status_history, inNames tr.toStatus doneNames = false) ∧
        (historySorted r.status_history →
          ∀ t, doneTimeOfRow doneNames r = some t →
            (∃ tr ∈ r.status_history,
              inNames tr.toStatus doneNames = true ∧ tr.t = t) ∧
            ∀ tr ∈ r.status_history,
              inNames tr.toStatus doneNames = true → tr.t ≤ t)) := by
  intro doneNames r
  constructor
  · intro ts hts
    simp [doneTimeOfRow, hts]
  · intro hres
    have hfall : doneTimeOfRow doneNames r
        = lastTimeToStatus r.status_history doneNames := by
      simp [doneTimeOfRow, hres]
    refine ⟨hfall, ?_, ?_⟩
    · rw [hfall]
      exact lastTimeToStatus_eq_none r.status_history doneNames
    · intro hsorted t ht
      rw [hfall] at ht
      exact ⟨lastTimeToStatus_mem r.status_history doneNames t ht,
        lastTimeToStatus_isMax r.status_history doneNames t hsorted ht⟩

/-- Row with an authoritative resolution at `t = 50` and a later done
transition at `t = 70`. -/
def rowResolved : IssueRow :=
  { key := some "R-1"
    created := some 0
    resolved := some 50
    story_points := none
    sprint_id := none
    status_history := [⟨70, none, some "Done"⟩]
    status_durations := []
    blocked_days := none }

/-- Row without an authoritative resolution whose history enters "Done"
twice, at `t = 20` and most recently at `t = 25`. -/
def rowUnresolved : IssueRow :=
  { key := some "U-1"
    created := some 0
    resolved := none
    story_points := none
    sprint_id := none
    status_history :=
      [⟨20, none, some "Done"⟩, ⟨22, some "Done", some "Reopened"⟩,
       ⟨25, some "Reopened", some "Done"⟩]
    status_durations := []
    blocked_days := none }

/-- Witness for C5: `rowResolved` keeps its authoritative `resolved = 50`
(not the transition time `70`), and `rowUnresolved` falls back to the most
recent done transition at `25`. -/
theorem claim_C5_witness :
    doneTimeOfRow ["Done"] rowResolved = some 50 ∧
    doneTimeOfRow ["Done"] rowUnresolved
      = lastTimeToStatus rowUnresolved.status_history ["Done"] ∧
    (∃ tr ∈ rowUnresolved.status_history,
      inNames tr.toStatus ["Done"] = true ∧ tr.t = 25) ∧
    ∀ tr ∈ rowUnresolved.status_history,
      inNames tr.toStatus ["Done"] = true → tr.t ≤ 25 := by
  have h1 := (claim_C5 ["Done"] rowResolved).1 50 (by simp [rowResolved])
  have h2 := (claim_C5 ["Done"] rowUnresolved).2 (by simp [rowUnresolved])
  have hlast : doneTimeOfRow ["Done"] rowUnresolved = some 25 := by
    norm_num [doneTimeOfRow, rowUnresolved, lastTimeToStatus, firstTimeToStatus,
      inNames]
  have h3 := h2.2.2 (by norm_num [historySorted, rowUnresolved]) 25 hlast
  exact ⟨h1, h2.1, h3.1, h3.2⟩

/-! ## Claim C6 -/

/-- Claim C6: the reopen rate equals `100 × (completed ∧ reopened) /
completed`, and is exactly `0` — defined, not NaN — when no issue is
completed. -/
theorem claim_C6 :
    ∀ (sqrtQ : ℚ → ℚ) (f : Frame) (inProgressNames doneNames : List String)
      (m : MetricsResult),
      computeAllMetrics sqrtQ f inProgressNames doneNames = Except.ok m →
      m.reopen_rate_pct = specReopenRatePct doneNames f.rows ∧
      ((f.rows.filter fun r => (doneTimeOfRow doneNames r).isSome).length = 0 →
        m.reopen_rate_pct = 0) := by
  intro sqrtQ f inProgressNames doneNames m hok
  have hfield : m.reopen_rate_pct = reopenRateOf doneNames f.rows := by
    by_cases h1 : f.hasStatusHistory = false
    · rw [computeAllMetrics, if_pos h1] at hok
      exact Except.noConfusion hok
    by_cases h2 : f.hasResolved = false
    · rw [computeAllMetrics, if_neg h1, if_pos h2] at hok
      exact Except.noConfusion hok
    simp only [computeAllMetrics, if_neg h1, if_neg h2] at hok
    split at hok
    · exact Except.noConfusion hok
    · obtain rfl := Except.ok.inj hok
      rfl
  have hspec : reopenRateOf doneNames f.rows = specReopenRatePct doneNames f.rows := by
    have hcount :
        (f.rows.filter fun r =>
          wasReopened r.status_history doneNames
            && (doneTimeOfRow doneNames r).isSome).length =
        ((f.rows.filter fun r => (doneTimeOfRow doneNames r).isSome).filter
          fun r => wasReopened r.status_history doneNames).length := by
      rw [List.filter_filter]
    rw [reopenRateOf, specReopenRatePct]
    by_cases hc :
        (f.rows.filter fun r => (doneTimeOfRow doneNames r).isSome).length = 0
    · simp only [completedRowsOf, hc]
      norm_num
    · simp only [completedRowsOf, if_neg hc,
        if_pos (Nat.pos_of_ne_zero hc), hcount]
      ring
  refine ⟨hfield.trans hspec, ?_⟩
  intro hzero
  rw [hfield, reopenRateOf]
  simp only [completedRowsOf, hzero]
  norm_num

/-- Completed row that was reopened: done at `t = 0`, left the done set at
`t = 5`, authoritative resolution present. -/
def rowReopened : IssueRow :=
  { key := some "C-1"
    created := some 0
    resolved := some 10
    story_points := none
    sprint_id := none
    status_history :=
      [⟨0, none, some "Done"⟩, ⟨5, some "Done", some "Reopened"⟩]
    status_durations := []
    blocked_days := none }

/-- Completed row that was never reopened. -/
def rowDoneOnly : IssueRow :=
  { key := some "C-2"
    created := some 0
    resolved := some 20
    story_points := none
    sprint_id := none
    status_history := []
    status_durations := []
    blocked_days := none }

/-- Two completed rows, one of them reopened. -/
def frameReopen : Frame :=
  { rows := [rowReopened, rowDoneOnly]
    hasStatusHistory := true
    hasCreated := true
    hasResolved := true
    hasSprintId := true
    hasStoryPoints := true
    hasBlockedDays := true }

/-- Witness for C6 on `frameReopen`: one of two completed issues reopened
gives a rate of exactly `50`. -/
theorem claim_C6_witness :
    specReopenRatePct ["Done"] frameReopen.rows = 50 ∧
    (computeAllMetrics (fun q => q) frameReopen ["In Progress"] ["Done"]).map
      (fun m => m.reopen_rate_pct) = Except.ok (50 : ℚ) := by
  have hRD : (("Reopened" : String) = "Done") = False := by simp
  have hspec : specReopenRatePct ["Done"] frameReopen.rows = 50 := by
    norm_num [specReopenRatePct, frameReopen, rowReopened, rowDoneOnly,
      doneTimeOfRow, wasReopened, wasReopenedGo, inNames, List.filter_cons, hRD]
  refine ⟨hspec, ?_⟩
  cases heval : computeAllMetrics (fun q => q) frameReopen ["In Progress"] ["Done"] with
  | error e =>
    exfalso
    rw [computeAllMetrics] at heval
    norm_num [frameReopen, rowReopened, rowDoneOnly, doneTimeOfRow,
      List.filter_cons] at heval
    exact Except.noConfusion heval
  | ok m =>
    have h := (claim_C6 (fun q => q) frameReopen ["In Progress"] ["Done"] m heval).1
    simp [Except.map, h, hspec]

/-! ## Claim C7 -/

theorem filterMap_id_sum (vals : List (Option ℚ)) :
    (vals.filterMap id).sum = (vals.map fun v => v.getD 0).sum := by
  induction vals with
  | nil => simp
  | cons v rest ih => cases v <;> simp [ih]

/-- `sum(min_count=1)` followed by `fillna(0.0)` coincides with summing
the values with missing entries read as `0`. -/
theorem sumMinCount1_getD (vals : List (Option ℚ)) :
    (sumMinCount1 vals).getD 0 = (vals.map fun v => v.getD 0).sum := by
  rw [sumMinCount1]
  by_cases h : (vals.filterMap id).isEmpty
  · rw [if_pos h]
    simp only [Option.getD_none]
    rw [← filterMap_id_sum, List.isEmpty_iff.mp h, List.sum_nil]
  · rw [if_neg h]
    simp only [Option.getD_some]
    exact filterMap_id_sum vals

theorem mem_insertSprintKey (x s : Int) (acc : List Int) :
    x ∈ insertSprintKey s acc ↔ x = s ∨ x ∈ acc := by
  induction acc with
  | nil => simp [insertSprintKey]
  | cons k rest ih =>
    rw [insertSprintKey]
    by_cases h1 : s = k
    · rw [if_pos h1]
      subst h1
      simp only [List.mem_cons]
      tauto
    · rw [if_neg h1]
      by_cases h2 : s < k
      · rw [if_pos h2]
        simp only [List.mem_cons]
      · rw [if_neg h2]
        simp only [List.mem_cons, ih]
        tauto

theorem mem_foldl_insertSprintKey (l : List Int) :
    ∀ (acc : List Int) (x : Int),
      x ∈ l.foldl (fun a s => insertSprintKey s a) acc ↔ x ∈ l ∨ x ∈ acc := by
  induction l with
  | nil =>
    intro acc x
    simp
  | cons s rest ih =>
    intro acc x
    rw [List.foldl_cons, ih, mem_insertSprintKey]
    simp only [List.mem_cons]
    tauto

/-- The group keys of `groupby("sprint_id")` are exactly the sprint ids
occurring among the rows. -/
theorem mem_sprintKeys (rows : List IssueRow) (x : Int) :
    x ∈ sprintKeys rows ↔ ∃ r ∈ rows, r.sprint_id = some x := by
  rw [sprintKeys, mem_foldl_insertSprintKey]
  simp [List.mem_filterMap]

/-- The selection and the per-sprint sums of the source agree with the
spec-worded ones. -/
theorem velocityOf_eq_spec (doneNames : List String) (f : Frame) :
    completedWithSprintOf doneNames f = specCompletedWithSprint doneNames f ∧
    velocityOf doneNames f = specVelocity doneNames f := by
  have hsel : completedWithSprintOf doneNames f
      = specCompletedWithSprint doneNames f := by
    rw [completedWithSprintOf, specCompletedWithSprint, completedRowsOf]
    by_cases hs : f.hasSprintId = true
    · rw [if_pos hs, if_pos hs, List.filter_filter]
      exact List.filter_congr fun r _ => Bool.and_comm _ _
    · rw [if_neg hs, if_neg hs]
  refine ⟨hsel, ?_⟩
  rw [velocityOf, specVelocity, hsel]
  refine List.map_congr_left fun s _ => ?_
  rw [sumMinCount1_getD, List.map_map]
  rfl

/-- Claim C7: velocity aggregates only completed issues that carry a sprint
id, grouped by sprint id, summing size estimates with missing estimates as
`0`; every sprint with at least one such issue gets an entry (so an
all-missing group yields `0.0`, not an absent entry). -/
theorem claim_C7 :
    ∀ (sqrtQ : ℚ → ℚ) (f : Frame) (inProgressNames doneNames : List String)
      (m : MetricsResult),
      computeAllMetrics sqrtQ f inProgressNames doneNames = Except.ok m →
      m.velocity = specVelocity doneNames f ∧
      ∀ s : Int,
        (∃ r ∈ specCompletedWithSprint doneNames f, r.sprint_id = some s) ↔
        ∃ q, (s, q) ∈ m.velocity := by
  intro sqrtQ f inProgressNames doneNames m hok
  have hfield : m.velocity = velocityOf doneNames f := by
    by_cases h1 : f.hasStatusHistory = false
    · rw [computeAllMetrics, if_pos h1] at hok
      exact Except.noConfusion hok
    by_cases h2 : f.hasResolved = false
    · rw [computeAllMetrics, if_neg h1, if_pos h2] at hok
      exact Except.noConfusion hok
    simp only [computeAllMetrics, if_neg h1, if_neg h2] at hok
    split at hok
    · exact Except.noConfusion hok
    · obtain rfl := Except.ok.inj hok
      rfl
  have hspec := velocityOf_eq_spec doneNames f
  refine ⟨hfield.trans hspec.2, ?_⟩
  intro s
  rw [hfield.trans hspec.2, specVelocity]
  constructor
  · rintro ⟨r, hr, hrs⟩
    have hkey : s ∈ sprintKeys (specCompletedWithSprint doneNames f) :=
      (mem_sprintKeys _ s).mpr ⟨r, hr, hrs⟩
    exact ⟨_, List.mem_map.mpr ⟨s, hkey, rfl⟩⟩
  · rintro ⟨q, hq⟩
    obtain ⟨s0, hs0, heq⟩ := List.mem_map.mp hq
    have hs : s0 = s := congrArg Prod.fst heq
    exact hs ▸ (mem_sprintKeys _ s0).mp hs0

/-- Completed row attributed to sprint `7` with the given size estimate. -/
def rowSprint (k : String) (sp : Option ℚ) : IssueRow :=
  { key := some k
    created := some 0
    resolved := some 100
    story_points := sp
    sprint_id := some 7
    status_history := []
    status_durations := []
    blocked_days := none }

/-- Three completed issues in sprint `7` with estimates `{3, null, 5}`. -/
def frameSprint : Frame :=
  { rows := [rowSprint "S-1" (some 3), rowSprint "S-2" none, rowSprint "S-3" (some 5)]
    hasStatusHistory := true
    hasCreated := true
    hasResolved := true
    hasSprintId := true
    hasStoryPoints := true
    hasBlockedDays := true }

/-- Witness for C7 on `frameSprint`: estimates `{3, null, 5}` in one sprint
sum to velocity `8`. -/
theorem claim_C7_witness :
    specVelocity ["Done"] frameSprint = [(7, 8)] ∧
    (computeAllMetrics (fun q => q) frameSprint ["In Progress"] ["Done"]).map
      (fun m => m.velocity) = Except.ok [(7, 8)] := by
  have hspec : specVelocity ["Done"] frameSprint = [(7, 8)] := by
    norm_num [specVelocity, specCompletedWithSprint, frameSprint, rowSprint,
      doneTimeOfRow, sprintKeys, insertSprintKey, List.filter_cons,
      List.filterMap_cons]
  refine ⟨hspec, ?_⟩
  cases heval : computeAllMetrics (fun q => q) frameSprint ["In Progress"] ["Done"] with
  | error e =>
    exfalso
    rw [computeAllMetrics] at heval
    norm_num [frameSprint, rowSprint, completedWithSprintOf, completedRowsOf,
      doneTimeOfRow, List.filter_cons] at heval
    exact Except.noConfusion heval
  | ok m =>
    have h := (claim_C7 (fun q => q) frameSprint ["In Progress"] ["Done"] m heval).1
    simp [Except.map, h, hspec]

/-! ## Claim C8 -/

/-- Metrics whose cycle-time mean is exactly `0.0` and whose lead-time mean
is `5.0`: the claim's rule 1 inequality `5 - 0 > 2` holds over defined
values, but Python float truthiness makes the `0.0` mean falsy. -/
def mZeroCycle : MetricsResult :=
  { cycle_time_days := [some 0]
    lead_time_days := some [some 5]
    throughput := []
    velocity := []
    reopen_rate_pct := 0
    avg_cycle_time_days := some 0
    avg_lead_time_days := some 5
    cycle_time_std_days := none
    blocked_avg_days := none }

/-- Claim C8, as stated, is false: on `mZeroCycle` the claim's reading
fires rule 1 (both means defined, `5 - 0 > 2`), but the code's guard
`m.avg_cycle_time_days and ...` treats the `0.0` mean as falsy, so the
emitted recommendation list is empty. -/
theorem claim_C8_counterexample :
    recsOutput mZeroCycle = [] ∧ claimRecs mZeroCycle = [recGrooming] ∧
    recsOutput mZeroCycle ≠ claimRecs mZeroCycle := by
  have h1 : recsOutput mZeroCycle = [] := by
    norm_num [recsOutput, recsAll, rule1Fires, rule2Fires, rule3Fires,
      rule4Fires, mZeroCycle]
  have h2 : claimRecs mZeroCycle = [recGrooming] := by
    norm_num [claimRecs, claimRule1, claimRule2, claimRule3, claimRule4,
      mZeroCycle]
  refine ⟨h1, h2, ?_⟩
  rw [h1, h2]
  simp

/-- Claim C8, amended: the emitted list is the first at most three firing
rules in the fixed order, never more than three — with rule 1 amended to
require both means to be nonzero in addition to defined (the Python
truthiness guard); rules 2-4 are exactly as the claim states them. -/
theorem claim_C8 :
    ∀ m : MetricsResult,
      recsOutput m = amendedRecs m ∧ (recsOutput m).length ≤ 3 := by
  intro m
  constructor
  · have h1 : rule1Fires m = amendedRule1 m := by
      rw [rule1Fires, amendedRule1]
      cases m.avg_cycle_time_days with
      | none => rfl
      | some c =>
        cases m.avg_lead_time_days with
        | none => rfl
        | some l =>
          by_cases hc : c = 0 <;> by_cases hl : l = 0 <;> simp [hc, hl]
    have h2 : rule2Fires m = claimRule2 m := by
      rw [rule2Fires, claimRule2]
      cases m.blocked_avg_days with
      | none => rfl
      | some b =>
        simp
        intro hgt h0
        rw [h0] at hgt
        norm_num at hgt
    have h3 : rule3Fires m = claimRule3 m := rfl
    have h4 : rule4Fires m = claimRule4 m := by
      rw [rule4Fires, claimRule4]
      cases m.cycle_time_std_days with
      | none => rfl
      | some s =>
        simp
        intro hgt h0
        rw [h0] at hgt
        norm_num at hgt
    rw [recsOutput, recsAll, amendedRecs, h1, h2, h3, h4]
  · rw [recsOutput]
    simp only [List.length_take]
    omega

/-! ## Claim C9 -/

/-- Claim C9: for every raw change-log, the normalized history is sorted
non-decreasingly by timestamp (whatever order the change-log pages were
delivered in), and its entries are exactly the `"status"`-field items of
the entries with a parsable timestamp — entries with a missing or
unparsable timestamp are dropped silently, without aborting the rest. -/
theorem claim_C9 :
    ∀ entries : List RawHistoryEntry,
      (extractStatusHistory entries).Sorted (fun a b => a.t ≤ b.t) ∧
      ∀ tr : StatusTransition,
        tr ∈ extractStatusHistory entries ↔
          ∃ e ∈ entries, ∃ ts, e.created = some ts ∧
            ∃ it ∈ e.items, it.field = some "status" ∧
              tr = ⟨ts, it.fromString, it.toString⟩ := by
  intro entries
  constructor
  · have htrans : ∀ a b c : StatusTransition,
        decide (a.t ≤ b.t) = true → decide (b.t ≤ c.t) = true →
        decide (a.t ≤ c.t) = true := by
      intro a b c hab hbc
      simp only [decide_eq_true_eq] at hab hbc ⊢
      exact le_trans hab hbc
    have htotal : ∀ a b : StatusTransition,
        (decide (a.t ≤ b.t) || decide (b.t ≤ a.t)) = true := by
      intro a b
      simp [le_total]
    have h := @List.sorted_mergeSort StatusTransition
      (fun a b => decide (a.t ≤ b.t)) htrans htotal
      ((entries.map statusItemsOf).flatten)
    rw [extractStatusHistory]
    exact h.imp fun hab => by simpa using hab
  · intro tr
    rw [extractStatusHistory,
      List.Perm.mem_iff (List.mergeSort_perm _ _)]
    simp only [List.mem_flatten, List.mem_map]
    constructor
    · rintro ⟨lst, ⟨e, he, rfl⟩, htr⟩
      rw [statusItemsOf] at htr
      cases hc : e.created with
      | none =>
        rw [hc] at htr
        simp at htr
      | some ts =>
        rw [hc] at htr
        simp only [List.mem_map, List.mem_filter] at htr
        obtain ⟨it, ⟨hit, hfield⟩, rfl⟩ := htr
        exact ⟨e, he, ts, hc, it, hit, by simpa using hfield, rfl⟩
    · rintro ⟨e, he, ts, hts, it, hit, hfield, rfl⟩
      refine ⟨statusItemsOf e, ⟨e, he, rfl⟩, ?_⟩
      rw [statusItemsOf, hts]
      simp only [List.mem_map, List.mem_filter]
      exact ⟨it, ⟨hit, by simp [hfield]⟩, rfl⟩
